import Mathlib

/-!
Verification of the core of the `take` command-line helper (Go).

The development shallowly embeds the two Go packages that carry the logic:

* `internal/git` (`git.go`): `IsValidURL`, `GetRepoName`, `Clone`;
* `pkg/take` (`take.go`): the URL classification patterns, the dispatcher
  `Take`, and the handlers `handleGitURL`, `handleTarballURL`,
  `handleZipURL`, together with `expandPath`.

Go strings are modelled as `List Char`.  The parts of the Go standard
library the code uses (`strings`, `path/filepath` on a Unix separator) are
embedded as executable Lean functions following the Go sources.  External
effects (the filesystem, HTTP, and the `git`/`tar` subprocesses) are
modelled by an oracle environment `Env`; every function additionally
returns the ordered trace of external calls it performed.
-/

set_option maxRecDepth 10000

/-- Characters of a string literal, the model of a Go string. -/
def str (s : String) : List Char := s.data

/-- True when the string contains no newline character.  (`.` in a Go
regular expression does not match a newline.) -/
def noNewline (s : List Char) : Bool := s.all (fun c => c ≠ '\n')

/-- Go `strings.TrimSuffix`: drop `suf` from the end of `s` when present. -/
def trimSuffix (s suf : List Char) : List Char :=
  if suf.isSuffixOf s then s.take (s.length - suf.length) else s

/-- Go `strings.Contains(s, sub)`: `sub` occurs contiguously in `s`
(always true for the empty pattern). -/
def containsStr (s pat : List Char) : Bool :=
  match s with
  | [] => pat.isEmpty
  | c :: rest => pat.isPrefixOf (c :: rest) || containsStr rest pat

/-- Go `strings.Split(s, sep)` for a one-character separator `sep`:
empty fields are preserved and splitting the empty string yields one
empty field. -/
def splitOnChar (c : Char) : List Char → List (List Char)
  | [] => [[]]
  | x :: rest =>
    if x = c then [] :: splitOnChar c rest
    else
      match splitOnChar c rest with
      | [] => [[x]]
      | s :: ss => (x :: s) :: ss

/-- Join a list of path segments with the Unix separator. -/
def joinSegs : List (List Char) → List Char
  | [] => []
  | [s] => s
  | s :: rest => s ++ '/' :: joinSegs rest

/-- One step of the segment-stack formulation of Go `filepath.Clean`
(Unix): empty and `.` segments are dropped; `..` pops a previous real
segment, is dropped at the root, and is kept when there is nothing to
pop in a relative path.  The stack is kept in reverse order. -/
def cleanStep (rooted : Bool) (acc : List (List Char)) (seg : List Char) :
    List (List Char) :=
  if seg = [] ∨ seg = ['.'] then acc
  else if seg = ['.', '.'] then
    match acc with
    | [] => if rooted then [] else [seg]
    | top :: rest => if top = ['.', '.'] then seg :: top :: rest else rest
  else seg :: acc

/-- Go `filepath.Clean` on the Unix separator, via the standard
segment-stack algorithm (equivalent to the element-copying loop in
`path/filepath/path.go`). -/
def cleanPath (p : List Char) : List Char :=
  if p = [] then ['.']
  else
    let rooted := p.headI = '/'
    let segs := splitOnChar '/' p
    let stack := (segs.foldl (cleanStep rooted) []).reverse
    let body := joinSegs stack
    if rooted then '/' :: body
    else if body = [] then ['.'] else body

/-- Go `filepath.Base` (Unix): empty input gives `.`; trailing slashes
are stripped; an all-slash path gives `/`; otherwise everything after
the last slash. -/
def basePath (p : List Char) : List Char :=
  if p = [] then ['.']
  else
    let p1 := (p.reverse.dropWhile (fun c => c = '/')).reverse
    if p1 = [] then ['/']
    else ((p1.reverse.takeWhile (fun c => c ≠ '/')).reverse)

/-- Go `filepath.Dir` (Unix): everything up to and including the last
slash, cleaned; a path with no slash has directory `.`. -/
def dirPath (p : List Char) : List Char :=
  cleanPath ((p.reverse.dropWhile (fun c => c ≠ '/')).reverse)

/-- Go `filepath.Join` of two elements (Unix): empty elements are
dropped, the rest joined with a slash, and the result cleaned.  The
join of two empty strings is the empty string. -/
def joinPath2 (a b : List Char) : List Char :=
  if a = [] ∧ b = [] then []
  else if a = [] then cleanPath b
  else if b = [] then cleanPath a
  else cleanPath (a ++ '/' :: b)

/-- Go `filepath.Ext`: the suffix of the final path element starting at
its last dot, the empty string when the final element has no dot.
Implemented by scanning the reversed string up to the first separator. -/
def extFromRev : List Char → List Char → List Char
  | [], _ => []
  | c :: rest, acc =>
    if c = '/' then []
    else if c = '.' then '.' :: acc
    else extFromRev rest (c :: acc)

/-- Go `filepath.Ext` on the Unix separator. -/
def fileExt (p : List Char) : List Char := extFromRev p.reverse []

/-- Go `filepath.IsAbs` (Unix): the path starts with a slash. -/
def isAbsPath (p : List Char) : Bool := (str "/").isPrefixOf p

/-- The character class `[A-Za-z0-9]` of the git URL pattern. -/
def alnum (c : Char) : Bool :=
  (decide ('A' ≤ c) && decide (c ≤ 'Z')) ||
  (decide ('a' ≤ c) && decide (c ≤ 'z')) ||
  (decide ('0' ≤ c) && decide (c ≤ '9'))

/-- After at least one `[A-Za-z0-9]` character has been consumed,
consume the rest of the alphanumeric run and require an `@`; return what
follows it.  Because `@` is not alphanumeric, the run of the regular
expression fragment `[A-Za-z0-9]+@` can only stop at the first
non-alphanumeric character, so this scan is exhaustive. -/
def userinfoTail : List Char → Option (List Char)
  | [] => none
  | c :: rest =>
    if c = '@' then some rest
    else if alnum c then userinfoTail rest
    else none

/-- Match of the regular expression fragment `[A-Za-z0-9]+@` as a
prefix: the remainder of the string on success. -/
def userinfoRest : List Char → Option (List Char)
  | [] => none
  | c :: rest => if alnum c then userinfoTail rest else none

/-- Match of the fragment `.*\.git/?$` against the part of the input
after the leading group: the string ends in `.git` or `.git/` and the
characters consumed by `.*` contain no newline. -/
def gitTailMatch (r : List Char) : Bool :=
  ((str ".git").isSuffixOf r && noNewline (r.take (r.length - 4))) ||
  ((str ".git/").isSuffixOf r && noNewline (r.take (r.length - 5)))

/-- The literal alternatives of the leading group of the git pattern:
`https?` contributes `http` and `https`, `ftps?` contributes `ftp` and
`ftps`. -/
def gitSchemes : List (List Char) :=
  [str "http", str "https", str "git", str "ssh", str "ftp", str "ftps",
   str "rsync"]

/-- Go `urlPatterns.git.MatchString`, the anchored regular expression
`([A-Za-z0-9]+@|https?|git|ssh|ftps?|rsync).*\.git/?` from `take.go`. -/
def gitPatternMatch (s : List Char) : Bool :=
  gitSchemes.any (fun p => p.isPrefixOf s && gitTailMatch (s.drop p.length)) ||
  (match userinfoRest s with
   | some rest => gitTailMatch rest
   | none => false)

/-- The four suffix alternatives of `\.(tar\.(gz|bz2|xz)|tgz)`. -/
def tarSuffixes : List (List Char) :=
  [str ".tar.gz", str ".tar.bz2", str ".tar.xz", str ".tgz"]

/-- Match of `.*SUF$` for one of the tarball suffix alternatives, with
the newline restriction on `.*`. -/
def tarTailMatch (r : List Char) : Bool :=
  tarSuffixes.any
    (fun suf => suf.isSuffixOf r && noNewline (r.take (r.length - suf.length)))

/-- Go `urlPatterns.tarball.MatchString`, the anchored expression
`(https?|ftp).*\.(tar\.(gz|bz2|xz)|tgz)` from `take.go`. -/
def tarballPatternMatch (s : List Char) : Bool :=
  [str "http", str "https", str "ftp"].any
    (fun p => p.isPrefixOf s && tarTailMatch (s.drop p.length))

/-- Match of `.*\.zip$` with the newline restriction on `.*`. -/
def zipTailMatch (r : List Char) : Bool :=
  (str ".zip").isSuffixOf r && noNewline (r.take (r.length - 4))

/-- Go `urlPatterns.zip.MatchString`, the anchored expression
`(https?|ftp).*\.(zip)` from `take.go`. -/
def zipPatternMatch (s : List Char) : Bool :=
  [str "http", str "https", str "ftp"].any
    (fun p => p.isPrefixOf s && zipTailMatch (s.drop p.length))

/-- Errors of the program, one constructor per distinct Go error value
or `fmt.Errorf` format string (`take.go` and `git.go`). -/
inductive GoErr : Type
  /-- `take.ErrInvalidPath` ("invalid path specified"). -/
  | invalidPath : GoErr
  /-- `take.ErrPermissionDenied` ("permission denied"). -/
  | permissionDenied : GoErr
  /-- `take.ErrInvalidURL` ("invalid URL format"). -/
  | invalidURL : GoErr
  /-- `take.ErrDownloadFailed` ("failed to download file"). -/
  | downloadFailed : GoErr
  /-- `git.ErrInvalidURL` ("invalid git URL"). -/
  | gitInvalidURL : GoErr
  /-- `git.Clone`: `fmt.Errorf` wrapping `git.ErrCloneFailed` with the
  combined output of the subprocess. -/
  | gitCloneFailed (output : List Char) : GoErr
  /-- `handleGitURL`: "failed to clone repository: %w". -/
  | cloneFailedWrap (inner : GoErr) : GoErr
  /-- `handleTarballURL`: "tar extraction failed: %v". -/
  | tarExtractionFailed (msg : List Char) : GoErr
  /-- `handleTarballURL`: "no directory found in archive". -/
  | noDirectoryFound : GoErr
  /-- `handleZipURL`: "failed to open zip: %v". -/
  | zipOpenFailed (msg : List Char) : GoErr
  /-- `handleZipURL`: "failed to create root directory: %v". -/
  | createRootDirFailed (msg : List Char) : GoErr
  /-- `handleZipURL`: "failed to create directory: %v". -/
  | createDirFailed (msg : List Char) : GoErr
  /-- `handleZipURL`: "failed to create parent directory: %v". -/
  | createParentDirFailed (msg : List Char) : GoErr
  /-- `handleZipURL`: "failed to create file: %v". -/
  | createFileFailed (msg : List Char) : GoErr
  /-- `handleZipURL`: "failed to open file in zip: %v". -/
  | openZipEntryFailed (msg : List Char) : GoErr
  /-- `handleZipURL`: "failed to extract file: %v". -/
  | extractFileFailed (msg : List Char) : GoErr
  /-- `handleZipURL`: "failed to move directory: %v". -/
  | moveDirFailed (msg : List Char) : GoErr
  /-- An operating-system error propagated unwrapped (`os.MkdirTemp`,
  `os.CreateTemp`, `os.ReadDir`, `os.Rename`, `filepath.Abs`,
  `os.UserHomeDir`, non-permission `os.MkdirAll`). -/
  | osError (msg : List Char) : GoErr
  deriving DecidableEq, Repr

/-- The `Error()` message of each modelled error, following the
`errors.New` and `fmt.Errorf` format strings in the source. -/
def errMessage : GoErr → List Char
  | .invalidPath => str "invalid path specified"
  | .permissionDenied => str "permission denied"
  | .invalidURL => str "invalid URL format"
  | .downloadFailed => str "failed to download file"
  | .gitInvalidURL => str "invalid git URL"
  | .gitCloneFailed out => str "git clone failed: " ++ out
  | .cloneFailedWrap e => str "failed to clone repository: " ++ errMessage e
  | .tarExtractionFailed m => str "tar extraction failed: " ++ m
  | .noDirectoryFound => str "no directory found in archive"
  | .zipOpenFailed m => str "failed to open zip: " ++ m
  | .createRootDirFailed m => str "failed to create root directory: " ++ m
  | .createDirFailed m => str "failed to create directory: " ++ m
  | .createParentDirFailed m => str "failed to create parent directory: " ++ m
  | .createFileFailed m => str "failed to create file: " ++ m
  | .openZipEntryFailed m => str "failed to open file in zip: " ++ m
  | .extractFileFailed m => str "failed to extract file: " ++ m
  | .moveDirFailed m => str "failed to move directory: " ++ m
  | .osError m => m

/-- The error kinds of the specification's error taxonomy. -/
inductive ErrKind : Type
  | invalidPathKind : ErrKind
  | permissionDeniedKind : ErrKind
  | invalidURLKind : ErrKind
  | gitCloneFailedKind : ErrKind
  | downloadFailedKind : ErrKind
  | extractionFailedKind : ErrKind
  | genericIOKind : ErrKind
  deriving DecidableEq, Repr

/-- Modelled from the spec: the taxonomy of section 7 assigns each
concrete error a kind.  ExtractionFailed covers "archive format error,
missing root directory, or filesystem move failure"; GitCloneFailed
covers a non-zero exit of the external clone; unwrapped OS errors are
the "generic I/O error" of section 4.1. -/
def errKind : GoErr → ErrKind
  | .invalidPath => .invalidPathKind
  | .permissionDenied => .permissionDeniedKind
  | .invalidURL => .invalidURLKind
  | .downloadFailed => .downloadFailedKind
  | .gitInvalidURL => .invalidURLKind
  | .gitCloneFailed _ => .gitCloneFailedKind
  | .cloneFailedWrap e => errKind e
  | .tarExtractionFailed _ => .extractionFailedKind
  | .noDirectoryFound => .extractionFailedKind
  | .zipOpenFailed _ => .extractionFailedKind
  | .createRootDirFailed _ => .extractionFailedKind
  | .createDirFailed _ => .extractionFailedKind
  | .createParentDirFailed _ => .extractionFailedKind
  | .createFileFailed _ => .extractionFailedKind
  | .openZipEntryFailed _ => .extractionFailedKind
  | .extractFileFailed _ => .extractionFailedKind
  | .moveDirFailed _ => .extractionFailedKind
  | .osError _ => .genericIOKind

/-- An entry returned by `os.ReadDir`. -/
structure DirEntry : Type where
  name : List Char
  isDir : Bool
  deriving DecidableEq, Repr

/-- An entry of a zip archive as exposed by `zip.OpenReader`:
its name and whether its `FileInfo` reports a directory. -/
structure ZipEntry : Type where
  name : List Char
  isDir : Bool
  deriving DecidableEq, Repr

/-- Outcome of `os.MkdirAll`: success, a permission error
(`os.IsPermission`), or another error with its message. -/
inductive MkdirOut : Type
  | ok : MkdirOut
  | permission : MkdirOut
  | other (msg : List Char) : MkdirOut
  deriving DecidableEq, Repr

/-- The message of a failed `os.MkdirAll`, used where the code formats
the error into a string. -/
def mkdirMsg : MkdirOut → List Char
  | .ok => []
  | .permission => str "permission denied"
  | .other m => m

/-- An HTTP response as far as the handlers look at it: the status code
and whether reading the whole body (`io.Copy`) succeeds. -/
structure HttpResp : Type where
  statusCode : Int
  bodyReadOk : Bool
  deriving DecidableEq, Repr

/-- An observable external call, recorded in order of execution. -/
inductive Effect : Type
  /-- `exec.Command("git", args...)`. -/
  | execGit (args : List (List Char)) : Effect
  /-- `exec.Command("tar", args...)`. -/
  | execTar (args : List (List Char)) : Effect
  /-- `http.Get(url)`. -/
  | httpGetE (url : List Char) : Effect
  /-- `os.MkdirAll(path, perm)`. -/
  | mkdirAllE (path : List Char) : Effect
  /-- `os.MkdirTemp("", "take-*")`. -/
  | mkdirTempE : Effect
  /-- `os.CreateTemp(dir, pattern)`. -/
  | createTempE (dir pat : List Char) : Effect
  /-- streaming the response body into the temp file (`io.Copy`). -/
  | writeBodyE (file : List Char) : Effect
  /-- `os.ReadDir(path)`. -/
  | readDirE (path : List Char) : Effect
  /-- `os.Rename(src, dst)`. -/
  | renameE (src dst : List Char) : Effect
  /-- `os.RemoveAll(path)` (also the deferred cleanups). -/
  | removeAllE (path : List Char) : Effect
  /-- `os.Remove(path)` (deferred temp-file cleanup). -/
  | removeE (path : List Char) : Effect
  /-- `zip.OpenReader(path)`. -/
  | zipOpenE (path : List Char) : Effect
  /-- writing one zip entry under the scratch directory. -/
  | writeEntryE (path : List Char) : Effect
  deriving DecidableEq, Repr

/-- Failure of one iteration of the zip extraction loop, one
constructor per failing operation in the loop body. -/
inductive ZipEntryErr : Type
  /-- `os.MkdirAll(path, file.Mode())` for a directory entry. -/
  | mkdirDir (msg : List Char) : ZipEntryErr
  /-- `os.MkdirAll(filepath.Dir(path), 0755)` for a file entry. -/
  | mkdirParent (msg : List Char) : ZipEntryErr
  /-- `os.OpenFile` of the destination. -/
  | openDst (msg : List Char) : ZipEntryErr
  /-- `file.Open()` of the archived entry. -/
  | openSrc (msg : List Char) : ZipEntryErr
  /-- `io.Copy` of the decompressed bytes. -/
  | copyBytes (msg : List Char) : ZipEntryErr
  deriving DecidableEq, Repr

/-- Oracle environment standing for the filesystem, the network and the
external subprocesses.  Each field models the outcome of one kind of
external call the Go code makes; `none`/`ok` means success. -/
structure Env : Type where
  /-- `git.IsGitRepo(dir)`: the directory contains a `.git` directory. -/
  isGitRepo : List Char → Bool
  /-- run `git` with the given arguments: `none` is exit 0, `some out`
  a non-zero exit with combined output `out`. -/
  gitRun : List (List Char) → Option (List Char)
  /-- run `tar` with the given arguments: `none` is exit 0, `some msg`
  a failure whose error formats to `msg`. -/
  tarRun : List (List Char) → Option (List Char)
  /-- `http.Get(url)`: `none` is a transport error. -/
  httpGet : List Char → Option HttpResp
  /-- `os.UserHomeDir()`. -/
  userHomeDir : Except (List Char) (List Char)
  /-- `os.MkdirAll(path, ...)`. -/
  mkdirAll : List Char → MkdirOut
  /-- `filepath.Abs(path)`. -/
  abs : List Char → Except (List Char) (List Char)
  /-- `os.MkdirTemp("", "take-*")`: the scratch directory name. -/
  mkdirTemp : Except (List Char) (List Char)
  /-- `os.CreateTemp(dir, pattern)`: the temp file name. -/
  createTemp : List Char → List Char → Except (List Char) (List Char)
  /-- `os.ReadDir(path)`. -/
  readDir : List Char → Except (List Char) (List DirEntry)
  /-- `os.Rename(src, dst)`: `none` is success. -/
  rename : List Char → List Char → Option (List Char)
  /-- `zip.OpenReader(path)`: the list of archive entries. -/
  zipOpenReader : List Char → Except (List Char) (List ZipEntry)
  /-- `io.Copy` of the response body for the given url: `true` is
  success. -/
  copyBody : List Char → Bool
  /-- outcome of the zip extraction loop body for one entry. -/
  zipWriteEntry : ZipEntry → Option ZipEntryErr

/-- `git.CloneOptions`. -/
structure CloneOptions : Type where
  url : List Char
  targetDir : List Char
  depth : Int
  deriving DecidableEq, Repr

/-- `git.IsValidURL` from `git.go`: SSH format is a `git@` head plus a
colon somewhere plus a `.git` suffix; HTTPS format is an `https://`
head plus a `.git` suffix; everything else is invalid. -/
def IsValidURL (url : List Char) : Bool :=
  if (str "git@").isPrefixOf url && containsStr url (str ":") then
    (str ".git").isSuffixOf url
  else if (str "https://").isPrefixOf url then
    (str ".git").isSuffixOf url
  else false

/-- `git.GetRepoName` from `git.go`: strip a `.git` suffix; for a
`git@` head split on the colon and keep the second field when the split
has exactly two fields; then take `filepath.Base`. -/
def GetRepoName (url : List Char) : List Char :=
  let name := trimSuffix url (str ".git")
  let name :=
    if (str "git@").isPrefixOf name then
      match splitOnChar ':' name with
      | [_, b] => b
      | _ => name
    else name
  basePath name

/-- Decimal rendering of an `Int`, the model of Go
`fmt.Sprintf("%d", n)`. -/
def intChars (n : Int) : List Char := (toString n).data

/-- `git.Clone` from `git.go`: reject URLs failing `IsValidURL` before
any subprocess runs, otherwise build the argument list (adding
`--depth N` when `opts.Depth > 0` and the target directory when it is
non-empty) and run `git`; a non-zero exit is wrapped into
`git.ErrCloneFailed` with the combined output.  The second component is
the trace of external calls. -/
def Clone (env : Env) (opts : CloneOptions) : Option GoErr × List Effect :=
  if ¬ IsValidURL opts.url then (some .gitInvalidURL, [])
  else
    let args := [str "clone"]
    let args :=
      if opts.depth > 0 then args ++ [str "--depth", intChars opts.depth]
      else args
    let args :=
      if opts.targetDir ≠ [] then args ++ [opts.url, opts.targetDir]
      else args ++ [opts.url]
    match env.gitRun args with
    | some output => (some (.gitCloneFailed output), [Effect.execGit args])
    | none => (none, [Effect.execGit args])

/-- `take.Options` from `take.go`. -/
structure Options : Type where
  path : List Char
  gitCloneDepth : Int
  force : Bool
  deriving DecidableEq, Repr

/-- `take.Result` from `take.go`; the Go zero values are the defaults. -/
structure Result : Type where
  finalPath : List Char := []
  wasCreated : Bool := false
  wasCloned : Bool := false
  wasDownloaded : Bool := false
  error : Option GoErr := none
  deriving DecidableEq, Repr

/-- `take.expandPath` from `take.go`: empty input is `ErrInvalidPath`;
a leading `~` is replaced by the home directory via `filepath.Join`;
non-absolute results are cleaned lexically. -/
def expandPath (env : Env) (path : List Char) : Except GoErr (List Char) :=
  if path = [] then .error .invalidPath
  else
    let step :=
      if (str "~").isPrefixOf path then
        match env.userHomeDir with
        | .error m => Except.error (GoErr.osError m)
        | .ok home => Except.ok (joinPath2 home (path.drop 1))
      else Except.ok path
    match step with
    | .error e => .error e
    | .ok p => .ok (if ¬ isAbsPath p then cleanPath p else p)

/-- `take.handleGitURL` from `take.go`: derive the target directory from
the URL (falling back to `filepath.Base` when the derivation is empty),
clone, wrap a clone failure, and otherwise resolve the target to an
absolute path with `wasCloned` set. -/
def handleGitURL (env : Env) (opts : Options) : Result × List Effect :=
  let targetDir := GetRepoName opts.path
  let targetDir := if targetDir = [] then basePath opts.path else targetDir
  let cloned := Clone env
    { url := opts.path, targetDir := targetDir, depth := opts.gitCloneDepth }
  match cloned with
  | (some e, effs) => ({ error := some (.cloneFailedWrap e) }, effs)
  | (none, effs) =>
    match env.abs targetDir with
    | .error m => ({ error := some (.osError m) }, effs)
    | .ok a => ({ finalPath := a, wasCloned := true }, effs)

/-- The first subdirectory among the entries of the scratch directory,
as the loop in `handleTarballURL` finds it (first `IsDir` entry wins);
the empty string when there is none. -/
def firstDirName : List DirEntry → List Char
  | [] => []
  | e :: rest => if e.isDir then e.name else firstDirName rest

/-- The part of `handleTarballURL` after the scratch directory and temp
file exist: download, run `tar xf`, locate the extracted directory,
move it into the working directory and resolve it.  Returns the result
and the trace of the calls made inside this part. -/
def tarAfterTemp (env : Env) (opts : Options) (tmpDir tmpFile : List Char) :
    Result × List Effect :=
  match env.httpGet opts.path with
  | none => ({ error := some .downloadFailed }, [Effect.httpGetE opts.path])
  | some resp =>
    if resp.statusCode ≠ 200 then
      ({ error := some .downloadFailed }, [Effect.httpGetE opts.path])
    else if ¬ env.copyBody opts.path then
      ({ error := some .downloadFailed },
       [Effect.httpGetE opts.path, Effect.writeBodyE tmpFile])
    else
      let dl := [Effect.httpGetE opts.path, Effect.writeBodyE tmpFile]
      let args := [str "xf", tmpFile, str "-C", tmpDir]
      match env.tarRun args with
      | some m =>
        ({ error := some (.tarExtractionFailed m) }, dl ++ [Effect.execTar args])
      | none =>
        let ran := dl ++ [Effect.execTar args]
        match env.readDir tmpDir with
        | .error m =>
          ({ error := some (.osError m) }, ran ++ [Effect.readDirE tmpDir])
        | .ok entries =>
          let read := ran ++ [Effect.readDirE tmpDir]
          let extractedDir := firstDirName entries
          if extractedDir = [] then
            ({ error := some .noDirectoryFound }, read)
          else
            let finalPath := joinPath2 (str ".") extractedDir
            let src := joinPath2 tmpDir extractedDir
            match env.rename src finalPath with
            | some m =>
              ({ error := some (.osError m) },
               read ++ [Effect.renameE src finalPath])
            | none =>
              let moved := read ++ [Effect.renameE src finalPath]
              match env.abs finalPath with
              | .error m => ({ error := some (.osError m) }, moved)
              | .ok a => ({ finalPath := a, wasDownloaded := true }, moved)

/-- `take.handleTarballURL` from `take.go`: make the scratch directory
and the temp file (whose pattern keeps the URL extension, defaulting to
`.tar.gz`), run the download-and-extract part, and perform the deferred
cleanups on every exit path. -/
def handleTarballURL (env : Env) (opts : Options) : Result × List Effect :=
  match env.mkdirTemp with
  | .error m => ({ error := some (.osError m) }, [Effect.mkdirTempE])
  | .ok tmpDir =>
    let ext := fileExt opts.path
    let ext := if ext = [] then str ".tar.gz" else ext
    let pat := str "archive-*" ++ ext
    match env.createTemp tmpDir pat with
    | .error m =>
      ({ error := some (.osError m) },
       [Effect.mkdirTempE, Effect.createTempE tmpDir pat,
        Effect.removeAllE tmpDir])
    | .ok tmpFile =>
      let body := tarAfterTemp env opts tmpDir tmpFile
      (body.1,
       [Effect.mkdirTempE, Effect.createTempE tmpDir pat] ++ body.2 ++
       [Effect.removeE tmpFile, Effect.removeAllE tmpDir])

/-- The root-directory scan of `handleZipURL` (`take.go`, the loop over
`zipReader.File`): `rootDir` starts empty; entries whose first path
segment starts with `.` or `_` are skipped; an empty `rootDir` takes the
entry's first segment; a differing first segment falls back to the
empty string and stops unless `rootDir` equals `filepath.Dir` of the
entry's name. -/
def zipRootScan : List ZipEntry → List Char → List Char
  | [], rootDir => rootDir
  | f :: rest, rootDir =>
    let parts := splitOnChar '/' f.name
    let p0 := parts.headI
    if (str ".").isPrefixOf p0 || (str "_").isPrefixOf p0 then
      zipRootScan rest rootDir
    else if rootDir = [] then zipRootScan rest p0
    else if p0 ≠ rootDir then
      if rootDir ≠ dirPath f.name then []
      else zipRootScan rest rootDir
    else zipRootScan rest rootDir

/-- The extraction loop of `handleZipURL`: each entry is materialized
under the scratch directory; the first failing entry aborts the loop
with the corresponding wrapped error. -/
def zipExtractLoop (env : Env) (tmpDir : List Char) :
    List ZipEntry → Option GoErr × List Effect
  | [] => (none, [])
  | f :: rest =>
    let path := joinPath2 tmpDir f.name
    match env.zipWriteEntry f with
    | some (.mkdirDir m) =>
      (some (.createDirFailed m), [Effect.writeEntryE path])
    | some (.mkdirParent m) =>
      (some (.createParentDirFailed m), [Effect.writeEntryE path])
    | some (.openDst m) =>
      (some (.createFileFailed m), [Effect.writeEntryE path])
    | some (.openSrc m) =>
      (some (.openZipEntryFailed m), [Effect.writeEntryE path])
    | some (.copyBytes m) =>
      (some (.extractFileFailed m), [Effect.writeEntryE path])
    | none =>
      let next := zipExtractLoop env tmpDir rest
      (next.1, Effect.writeEntryE path :: next.2)

/-- The tail of `handleZipURL` once the root directory name is settled:
extract every entry into the scratch directory, remove a pre-existing
destination in the working directory, move the extracted root there and
resolve it to an absolute path. -/
def zipFinish (env : Env) (tmpDir : List Char)
    (files : List ZipEntry) (rootDirF : List Char) (effs0 : List Effect) :
    Result × List Effect :=
  match zipExtractLoop env tmpDir files with
  | (some e, effs1) => ({ error := some e }, effs0 ++ effs1)
  | (none, effs1) =>
    let extracted := effs0 ++ effs1
    let finalPath := joinPath2 (str ".") rootDirF
    let src := joinPath2 tmpDir rootDirF
    match env.rename src finalPath with
    | some m =>
      ({ error := some (.moveDirFailed m) },
       extracted ++ [Effect.removeAllE finalPath,
         Effect.renameE src finalPath])
    | none =>
      let moved := extracted ++ [Effect.removeAllE finalPath,
        Effect.renameE src finalPath]
      match env.abs finalPath with
      | .error m => ({ error := some (.osError m) }, moved)
      | .ok a => ({ finalPath := a, wasDownloaded := true }, moved)

/-- The part of `handleZipURL` after the scratch directory and temp file
exist: download, open the archive, find the root directory (falling
back to the archive name with `.zip` stripped, creating that directory
in the scratch area), then `zipFinish`. -/
def zipAfterTemp (env : Env) (opts : Options) (tmpDir tmpFile : List Char) :
    Result × List Effect :=
  match env.httpGet opts.path with
  | none => ({ error := some .downloadFailed }, [Effect.httpGetE opts.path])
  | some resp =>
    if resp.statusCode ≠ 200 then
      ({ error := some .downloadFailed }, [Effect.httpGetE opts.path])
    else if ¬ env.copyBody opts.path then
      ({ error := some .downloadFailed },
       [Effect.httpGetE opts.path, Effect.writeBodyE tmpFile])
    else
      let dl := [Effect.httpGetE opts.path, Effect.writeBodyE tmpFile]
      match env.zipOpenReader tmpFile with
      | .error m =>
        ({ error := some (.zipOpenFailed m) }, dl ++ [Effect.zipOpenE tmpFile])
      | .ok files =>
        let opened := dl ++ [Effect.zipOpenE tmpFile]
        let rootDir := zipRootScan files []
        if rootDir = [] then
          let rd := trimSuffix (basePath opts.path) (str ".zip")
          match env.mkdirAll (joinPath2 tmpDir rd) with
          | .ok =>
            zipFinish env tmpDir files rd
              (opened ++ [Effect.mkdirAllE (joinPath2 tmpDir rd)])
          | .permission =>
            ({ error := some (.createRootDirFailed (mkdirMsg .permission)) },
             opened ++ [Effect.mkdirAllE (joinPath2 tmpDir rd)])
          | .other m =>
            ({ error := some (.createRootDirFailed m) },
             opened ++ [Effect.mkdirAllE (joinPath2 tmpDir rd)])
        else zipFinish env tmpDir files rootDir opened

/-- `take.handleZipURL` from `take.go`: scratch directory, temp file
with a `.zip` pattern, then the download-and-extract part, with the
deferred cleanups on every exit path. -/
def handleZipURL (env : Env) (opts : Options) : Result × List Effect :=
  match env.mkdirTemp with
  | .error m => ({ error := some (.osError m) }, [Effect.mkdirTempE])
  | .ok tmpDir =>
    let pat := str "archive-*.zip"
    match env.createTemp tmpDir pat with
    | .error m =>
      ({ error := some (.osError m) },
       [Effect.mkdirTempE, Effect.createTempE tmpDir pat,
        Effect.removeAllE tmpDir])
    | .ok tmpFile =>
      let body := zipAfterTemp env opts tmpDir tmpFile
      (body.1,
       [Effect.mkdirTempE, Effect.createTempE tmpDir pat] ++ body.2 ++
       [Effect.removeE tmpFile, Effect.removeAllE tmpDir])

/-- `take.Take` from `take.go`: reject an empty path; route strings
containing `://` or `@` (or naming an existing local git repository)
through the URL classification switch; otherwise expand the path,
create the directory chain and resolve it, with `wasCreated` set. -/
def Take (env : Env) (opts : Options) : Result × List Effect :=
  if opts.path = [] then ({ error := some .invalidPath }, [])
  else if containsStr opts.path (str "://") || containsStr opts.path (str "@") ||
      env.isGitRepo opts.path then
    if env.isGitRepo opts.path || gitPatternMatch opts.path then
      handleGitURL env opts
    else if tarballPatternMatch opts.path then handleTarballURL env opts
    else if zipPatternMatch opts.path then handleZipURL env opts
    else ({ error := some .invalidURL }, [])
  else
    match expandPath env opts.path with
    | .error e => ({ error := some e }, [])
    | .ok expandedPath =>
      match env.mkdirAll expandedPath with
      | .permission =>
        ({ error := some .permissionDenied }, [Effect.mkdirAllE expandedPath])
      | .other m =>
        ({ error := some (.osError m) }, [Effect.mkdirAllE expandedPath])
      | .ok =>
        match env.abs expandedPath with
        | .error m =>
          ({ error := some (.osError m) }, [Effect.mkdirAllE expandedPath])
        | .ok absPath =>
          ({ finalPath := absPath, wasCreated := true },
           [Effect.mkdirAllE expandedPath])

/-- Number of `was*` flags set in a `Result`. -/
def flagCount (r : Result) : Nat :=
  (cond r.wasCreated 1 0) + (cond r.wasCloned 1 0) + (cond r.wasDownloaded 1 0)

/-- The Result invariant of the specification: never more than one flag;
exactly one flag on success; no flag and a populated error on failure. -/
def ResultInv (r : Result) : Prop :=
  flagCount r ≤ 1 ∧
  (r.error = none → flagCount r = 1) ∧
  (r.error ≠ none →
    r.wasCreated = false ∧ r.wasCloned = false ∧ r.wasDownloaded = false)

/-- Everything after the last occurrence of `c` in `s` (all of `s` when
`c` does not occur). -/
def afterLastChar (c : Char) (s : List Char) : List Char :=
  (s.reverse.takeWhile (fun x => x ≠ c)).reverse

/-- Modelled from the spec: the claim's derivation for an SSH-style git
URL — strip a trailing `.git`, take the segment after the last colon,
then after the last slash. -/
def claimRepoNameSSH (url : List Char) : List Char :=
  afterLastChar '/' (afterLastChar ':' (trimSuffix url (str ".git")))

/-- Modelled from the spec: the claim's derivation for an HTTPS-style
git URL — strip a trailing `.git`, take the final path segment. -/
def claimRepoNameHTTPS (url : List Char) : List Char :=
  afterLastChar '/' (trimSuffix url (str ".git"))

/-- An entry's first path segment is skipped metadata noise when it
starts with a dot or an underscore. -/
def skipSeg (p0 : List Char) : Bool :=
  (str ".").isPrefixOf p0 || (str "_").isPrefixOf p0

/-- State of the root-directory scan described by the claim: nothing
tracked yet, a tracked first segment, or the conclusion that there is
no single common root. -/
inductive ClaimScan : Type
  | unset : ClaimScan
  | tracked (s : List Char) : ClaimScan
  | noRoot : ClaimScan
  deriving DecidableEq, Repr

/-- Modelled from the spec: one step of the scan the claim describes —
skip dot/underscore roots, track the first top-level segment seen, and
conclude there is no common root as soon as a later entry's top-level
segment differs from the tracked one. -/
def claimScanStep (st : ClaimScan) (f : ZipEntry) : ClaimScan :=
  let p0 := (splitOnChar '/' f.name).headI
  match st with
  | .noRoot => .noRoot
  | .unset => if skipSeg p0 then .unset else .tracked p0
  | .tracked s =>
    if skipSeg p0 then .tracked s
    else if p0 = s then .tracked s
    else .noRoot

/-- Modelled from the spec: the final name the claim's algorithm
produces — the tracked common root, or the archive file name with the
`.zip` extension stripped when no single common root was found. -/
def claimZipRootName (files : List ZipEntry) (url : List Char) : List Char :=
  match files.foldl claimScanStep .unset with
  | .tracked s => s
  | _ => trimSuffix (basePath url) (str ".zip")

/-- The name the code's scan produces, including its fallback: the
result of `zipRootScan`, or the archive file name with `.zip` stripped
when the scan ends with the empty string (`handleZipURL`). -/
def codeZipRootName (files : List ZipEntry) (url : List Char) : List Char :=
  let rootDir := zipRootScan files []
  if rootDir = [] then trimSuffix (basePath url) (str ".zip") else rootDir

/-- State of the amended scan: the currently tracked top-level segment
(the empty string meaning none is tracked yet), or the conclusion that
there is no single common root. -/
inductive AScan : Type
  | tracked (s : List Char) : AScan
  | noRoot : AScan
  deriving DecidableEq, Repr

/-- One step of the amended scan: skip dot/underscore roots; while the
tracked segment is empty the entry's first segment becomes the tracked
one; a later entry whose first segment differs from the non-empty
tracked segment ends the scan with no common root, unless the tracked
segment equals the cleaned parent directory of the entry's full path. -/
def amendedStep (st : AScan) (f : ZipEntry) : AScan :=
  match st with
  | .noRoot => .noRoot
  | .tracked s =>
    let p0 := (splitOnChar '/' f.name).headI
    if skipSeg p0 then .tracked s
    else if s = [] then .tracked p0
    else if p0 ≠ s ∧ s ≠ dirPath f.name then .noRoot
    else .tracked s

/-- The final name of the amended scan, with the same fallback as the
claim: the archive file name with `.zip` stripped when no non-empty
common root was tracked. -/
def amendedZipRootName (files : List ZipEntry) (url : List Char) : List Char :=
  match files.foldl amendedStep (.tracked []) with
  | .tracked s =>
    if s = [] then trimSuffix (basePath url) (str ".zip") else s
  | .noRoot => trimSuffix (basePath url) (str ".zip")

/-- The download step of both archive handlers fails, in the amended
reading: transport failure, a status other than 200, or a failed body
copy. -/
def downloadFails (env : Env) (url : List Char) : Prop :=
  env.httpGet url = none ∨
  (∃ r, env.httpGet url = some r ∧ r.statusCode ≠ 200) ∨
  env.copyBody url = false

/-- An environment in which every external operation succeeds:
no local git repositories, subprocesses exit 0, HTTP answers 200,
`filepath.Abs` is the identity, the scratch directory holds one
extracted subdirectory `d`, and the zip archive holds one entry `a/f`. -/
def envDefault : Env where
  isGitRepo := fun _ => false
  gitRun := fun _ => none
  tarRun := fun _ => none
  httpGet := fun _ => some { statusCode := 200, bodyReadOk := true }
  userHomeDir := .ok (str "/home/user")
  mkdirAll := fun _ => .ok
  abs := fun p => .ok p
  mkdirTemp := .ok (str "/tmp/take-1")
  createTemp := fun d _ => .ok (joinPath2 d (str "archive-1"))
  readDir := fun _ => .ok [{ name := str "d", isDir := true }]
  rename := fun _ _ => none
  zipOpenReader := fun _ => .ok [{ name := str "a/f", isDir := false }]
  copyBody := fun _ => true
  zipWriteEntry := fun _ => none

/-- `envDefault` with HTTP answering status 201 (a 2xx status that is
not `http.StatusOK`). -/
def env201 : Env :=
  { envDefault with
    httpGet := fun _ => some { statusCode := 201, bodyReadOk := true } }

/-- `envDefault` except that `/tmp/repo` is an existing local git
repository. -/
def envGitRepo : Env :=
  { envDefault with isGitRepo := fun p => decide (p = str "/tmp/repo") }

/-- `envDefault` with a failing `tar` subprocess. -/
def envTarFail : Env :=
  { envDefault with tarRun := fun _ => some (str "exit status 1") }

/-- `envDefault` with a scratch directory containing no subdirectory
after extraction (a single regular file). -/
def envNoDir : Env :=
  { envDefault with readDir := fun _ => .ok [{ name := str "f", isDir := false }] }

/-- The zip entry list of the divergence witness: an absolute-path
entry (top-level segment empty) followed by an entry rooted at `a`. -/
def zipFilesMixed : List ZipEntry :=
  [{ name := str "/x", isDir := false }, { name := str "a/f", isDir := false }]

/-- `envDefault` with the archive containing `zipFilesMixed`. -/
def envZipMixed : Env :=
  { envDefault with zipOpenReader := fun _ => .ok zipFilesMixed }

/-! ## Helper lemmas -/

theorem take_append_sub (x s : List Char) :
    (x ++ s).take ((x ++ s).length - s.length) = x := by
  have h : (x ++ s).length - s.length = x.length := by
    simp [List.length_append]
  rw [h, List.take_left]

theorem isSuffixOf_append_self (x s : List Char) :
    s.isSuffixOf (x ++ s) = true := by
  simp [List.isSuffixOf_iff_suffix]

theorem trimSuffix_append (x s : List Char) :
    trimSuffix (x ++ s) s = x := by
  simp [trimSuffix, isSuffixOf_append_self, take_append_sub]

/-! ## C8 -/

/-- C8: for every Options value whose path field is the empty string,
Take fails with the InvalidPath error, regardless of the other option
fields. -/
theorem c8_empty_path_invalid (env : Env) (opts : Options)
    (h : opts.path = []) :
    Take env opts = ({ error := some .invalidPath }, []) := by
  simp [Take, h]

/-- C8 witness: the empty path with concrete remaining options. -/
theorem c8_empty_path_invalid_witness :
    Take envDefault { path := [], gitCloneDepth := 3, force := true } =
      ({ error := some .invalidPath }, []) :=
  c8_empty_path_invalid envDefault _ rfl

/-! ## C10 -/

/-- C10: two Options values differing only in the Force field produce
the same Result and the same trace of external effects: the Force flag
is never read. -/
theorem c10_force_never_read (env : Env) (p : List Char) (d : Int)
    (f1 f2 : Bool) :
    Take env { path := p, gitCloneDepth := d, force := f1 } =
    Take env { path := p, gitCloneDepth := d, force := f2 } := rfl

theorem isPrefixOf_append_self (l t : List Char) :
    l.isPrefixOf (l ++ t) = true := by
  simp [List.isPrefixOf_iff_prefix]

theorem isPrefixOf_append_of_length (pre s0 rest : List Char)
    (h : pre.length ≤ s0.length) :
    pre.isPrefixOf (s0 ++ rest) = pre.isPrefixOf s0 := by
  induction pre generalizing s0 with
  | nil => simp [List.isPrefixOf]
  | cons a as ih =>
    cases s0 with
    | nil => simp at h
    | cons b bs =>
      simp only [List.cons_append, List.isPrefixOf_cons₂]
      rw [ih bs (by simpa using h)]

theorem isPrefixOf_neq_head (a b : Char) (as bs : List Char) (h : ¬ a = b) :
    (a :: as).isPrefixOf (b :: bs) = false := by
  simp [List.isPrefixOf_cons₂, h]

theorem gitTailMatch_append (x : List Char) (h : noNewline x = true) :
    gitTailMatch (x ++ str ".git") = true := by
  have h4 : (4 : Nat) = (str ".git").length := rfl
  unfold gitTailMatch
  rw [isSuffixOf_append_self, h4, take_append_sub, h]
  rfl

theorem gitPatternMatch_of_scheme (sch rest : List Char)
    (hmem : sch ∈ gitSchemes) (ht : gitTailMatch rest = true) :
    gitPatternMatch (sch ++ rest) = true := by
  unfold gitPatternMatch
  apply Bool.or_eq_true_iff.2
  left
  rw [List.any_eq_true]
  refine ⟨sch, hmem, ?_⟩
  rw [isPrefixOf_append_self, List.drop_left, ht]
  rfl

/-! ## C1 -/

/-- C1: classification follows the fixed suffix/prefix patterns: the
`.tar.gz` URL is a Tarball handled by the tarball handler, the `.zip`
URL a Zip handled by the zip handler, the two `.git` forms are Git and
handled by the git handler, and the `.xyz` URL (which contains a scheme
separator but matches no pattern) is Invalid, so Take returns the
InvalidURL error for it. -/
theorem c1_classification_boundary (env : Env) (d : Int) (f : Bool)
    (h1 : env.isGitRepo (str "https://host/x.tar.gz") = false)
    (h2 : env.isGitRepo (str "https://host/x.zip") = false)
    (h5 : env.isGitRepo (str "https://host/x.xyz") = false) :
    tarballPatternMatch (str "https://host/x.tar.gz") = true ∧
    Take env { path := str "https://host/x.tar.gz", gitCloneDepth := d, force := f } =
      handleTarballURL env { path := str "https://host/x.tar.gz", gitCloneDepth := d, force := f } ∧
    zipPatternMatch (str "https://host/x.zip") = true ∧
    Take env { path := str "https://host/x.zip", gitCloneDepth := d, force := f } =
      handleZipURL env { path := str "https://host/x.zip", gitCloneDepth := d, force := f } ∧
    gitPatternMatch (str "git@host:owner/repo.git") = true ∧
    Take env { path := str "git@host:owner/repo.git", gitCloneDepth := d, force := f } =
      handleGitURL env { path := str "git@host:owner/repo.git", gitCloneDepth := d, force := f } ∧
    gitPatternMatch (str "https://host/owner/repo.git") = true ∧
    Take env { path := str "https://host/owner/repo.git", gitCloneDepth := d, force := f } =
      handleGitURL env { path := str "https://host/owner/repo.git", gitCloneDepth := d, force := f } ∧
    containsStr (str "https://host/x.xyz") (str "://") = true ∧
    gitPatternMatch (str "https://host/x.xyz") = false ∧
    tarballPatternMatch (str "https://host/x.xyz") = false ∧
    zipPatternMatch (str "https://host/x.xyz") = false ∧
    Take env { path := str "https://host/x.xyz", gitCloneDepth := d, force := f } =
      ({ error := some .invalidURL }, []) := by
  refine ⟨by decide, ?_, by decide, ?_, by decide, ?_, by decide, ?_,
    by decide, by decide, by decide, by decide, ?_⟩
  · have hne : ¬ (str "https://host/x.tar.gz" = ([] : List Char)) := by decide
    have hc : containsStr (str "https://host/x.tar.gz") (str "://") = true := by decide
    have hg : gitPatternMatch (str "https://host/x.tar.gz") = false := by decide
    have ht : tarballPatternMatch (str "https://host/x.tar.gz") = true := by decide
    simp [Take, hne, hc, hg, ht, h1]
  · have hne : ¬ (str "https://host/x.zip" = ([] : List Char)) := by decide
    have hc : containsStr (str "https://host/x.zip") (str "://") = true := by decide
    have hg : gitPatternMatch (str "https://host/x.zip") = false := by decide
    have ht : tarballPatternMatch (str "https://host/x.zip") = false := by decide
    have hz : zipPatternMatch (str "https://host/x.zip") = true := by decide
    simp [Take, hne, hc, hg, ht, hz, h2]
  · have hne : ¬ (str "git@host:owner/repo.git" = ([] : List Char)) := by decide
    have hc : containsStr (str "git@host:owner/repo.git") (str "@") = true := by decide
    have hg : gitPatternMatch (str "git@host:owner/repo.git") = true := by decide
    simp [Take, hne, hc, hg]
  · have hne : ¬ (str "https://host/owner/repo.git" = ([] : List Char)) := by decide
    have hc : containsStr (str "https://host/owner/repo.git") (str "://") = true := by decide
    have hg : gitPatternMatch (str "https://host/owner/repo.git") = true := by decide
    simp [Take, hne, hc, hg]
  · have hne : ¬ (str "https://host/x.xyz" = ([] : List Char)) := by decide
    have hc : containsStr (str "https://host/x.xyz") (str "://") = true := by decide
    have hg : gitPatternMatch (str "https://host/x.xyz") = false := by decide
    have ht : tarballPatternMatch (str "https://host/x.xyz") = false := by decide
    have hz : zipPatternMatch (str "https://host/x.xyz") = false := by decide
    simp [Take, hne, hc, hg, ht, hz, h5]

/-- C1 witness: the Invalid case of the boundary, instantiated in the
all-succeeding environment (in which no input names a local git
repository). -/
theorem c1_classification_boundary_witness :
    Take envDefault { path := str "https://host/x.xyz", gitCloneDepth := 0, force := false } =
      ({ error := some .invalidURL }, []) :=
  (c1_classification_boundary envDefault 0 false rfl rfl rfl).2.2.2.2.2.2.2.2.2.2.2.2

/-! ## C2 -/

theorem take_git_repo_path_rejected (env : Env) (p : List Char) (d : Int)
    (f : Bool) (hne : p ≠ []) (hrepo : env.isGitRepo p = true)
    (hinv : IsValidURL p = false) :
    Take env { path := p, gitCloneDepth := d, force := f } =
      ({ error := some (.cloneFailedWrap .gitInvalidURL) }, []) := by
  simp [Take, hne, hrepo, handleGitURL, Clone, hinv]

/-- C2: evidence for the divergence on local git repositories.  In an
environment in which `/tmp/repo` is an existing local git repository,
Take routes the path to the git handler, but `Clone`'s `IsValidURL`
guard rejects every plain filesystem path, so the call always fails
with the wrapped invalid-git-URL error, never clones (the effect trace
is empty), and never sets `wasCloned`. -/
theorem c2_local_repo_never_cloned :
    envGitRepo.isGitRepo (str "/tmp/repo") = true ∧
    IsValidURL (str "/tmp/repo") = false ∧
    Take envGitRepo { path := str "/tmp/repo", gitCloneDepth := 0, force := false } =
      ({ error := some (.cloneFailedWrap .gitInvalidURL) }, []) :=
  ⟨by decide, by decide,
    take_git_repo_path_rejected envGitRepo (str "/tmp/repo") 0 false
      (by decide) (by decide) (by decide)⟩

/-! ## C9 -/

theorem isValidURL_iff (url : List Char) :
    IsValidURL url = true ↔
      ((str "git@").isPrefixOf url = true ∧ containsStr url (str ":") = true ∧
        (str ".git").isSuffixOf url = true) ∨
      ((str "https://").isPrefixOf url = true ∧
        (str ".git").isSuffixOf url = true) := by
  unfold IsValidURL
  by_cases h1 : (str "git@").isPrefixOf url <;>
    by_cases h2 : containsStr url (str ":") <;>
    by_cases h3 : (str "https://").isPrefixOf url <;>
    simp [h1, h2, h3]

/-- C9: a URL satisfying neither the SSH shape (`git@` head, a colon,
`.git` suffix) nor the HTTPS shape (`https://` head, `.git` suffix) is
rejected by Clone with the invalid-git-URL error before any external
git invocation (the effect trace is empty); in particular `ssh`,
`ftp(s)`, `rsync` and `git` scheme URLs — which the classifier's git
pattern accepts whenever they end in `.git` — are all rejected by this
guard. -/
theorem c9_clone_guard (env : Env) (opts : CloneOptions)
    (h : ¬ (((str "git@").isPrefixOf opts.url = true ∧
             containsStr opts.url (str ":") = true ∧
             (str ".git").isSuffixOf opts.url = true) ∨
            ((str "https://").isPrefixOf opts.url = true ∧
             (str ".git").isSuffixOf opts.url = true))) :
    Clone env opts = (some .gitInvalidURL, []) ∧
    (∀ rest : List Char,
      IsValidURL (str "ssh://" ++ rest) = false ∧
      IsValidURL (str "ftp://" ++ rest) = false ∧
      IsValidURL (str "ftps://" ++ rest) = false ∧
      IsValidURL (str "rsync://" ++ rest) = false ∧
      IsValidURL (str "git://" ++ rest) = false) ∧
    (∀ mid : List Char, noNewline mid = true →
      gitPatternMatch (str "ssh://" ++ (mid ++ str ".git")) = true ∧
      gitPatternMatch (str "ftp://" ++ (mid ++ str ".git")) = true ∧
      gitPatternMatch (str "ftps://" ++ (mid ++ str ".git")) = true ∧
      gitPatternMatch (str "rsync://" ++ (mid ++ str ".git")) = true ∧
      gitPatternMatch (str "git://" ++ (mid ++ str ".git")) = true) := by
  have hfalse : IsValidURL opts.url = false := by
    rcases hb : IsValidURL opts.url with _ | _
    · rfl
    · exact absurd ((isValidURL_iff opts.url).1 hb) h
  refine ⟨by simp [Clone, hfalse], ?_, ?_⟩
  · intro rest
    have g1 : (str "git@").isPrefixOf (str "ssh://" ++ rest) = false := by
      rw [isPrefixOf_append_of_length _ _ _ (by decide)]; decide
    have g2 : (str "git@").isPrefixOf (str "ftp://" ++ rest) = false := by
      rw [isPrefixOf_append_of_length _ _ _ (by decide)]; decide
    have g3 : (str "git@").isPrefixOf (str "ftps://" ++ rest) = false := by
      rw [isPrefixOf_append_of_length _ _ _ (by decide)]; decide
    have g4 : (str "git@").isPrefixOf (str "rsync://" ++ rest) = false := by
      rw [isPrefixOf_append_of_length _ _ _ (by decide)]; decide
    have g5 : (str "git@").isPrefixOf (str "git://" ++ rest) = false := by
      rw [isPrefixOf_append_of_length _ _ _ (by decide)]; decide
    have e1 : str "ssh://" ++ rest = 's' :: (str "sh://" ++ rest) := rfl
    have e2 : str "ftp://" ++ rest = 'f' :: (str "tp://" ++ rest) := rfl
    have e3 : str "ftps://" ++ rest = 'f' :: (str "tps://" ++ rest) := rfl
    have e4 : str "rsync://" ++ rest = 'r' :: (str "sync://" ++ rest) := rfl
    have e5 : str "git://" ++ rest = 'g' :: (str "it://" ++ rest) := rfl
    have eh : str "https://" = 'h' :: str "ttps://" := rfl
    have h1 : (str "https://").isPrefixOf (str "ssh://" ++ rest) = false := by
      rw [e1, eh, isPrefixOf_neq_head _ _ _ _ (by decide)]
    have h2 : (str "https://").isPrefixOf (str "ftp://" ++ rest) = false := by
      rw [e2, eh, isPrefixOf_neq_head _ _ _ _ (by decide)]
    have h3 : (str "https://").isPrefixOf (str "ftps://" ++ rest) = false := by
      rw [e3, eh, isPrefixOf_neq_head _ _ _ _ (by decide)]
    have h4 : (str "https://").isPrefixOf (str "rsync://" ++ rest) = false := by
      rw [e4, eh, isPrefixOf_neq_head _ _ _ _ (by decide)]
    have h5 : (str "https://").isPrefixOf (str "git://" ++ rest) = false := by
      rw [e5, eh, isPrefixOf_neq_head _ _ _ _ (by decide)]
    exact ⟨by simp [IsValidURL, g1, h1], by simp [IsValidURL, g2, h2],
      by simp [IsValidURL, g3, h3], by simp [IsValidURL, g4, h4],
      by simp [IsValidURL, g5, h5]⟩
  · intro mid hmid
    have htail : gitTailMatch ((str "://" ++ mid) ++ str ".git") = true := by
      apply gitTailMatch_append
      simp only [noNewline, List.all_append] at hmid ⊢
      rw [hmid]
      rfl
    have assoc : ∀ a : List Char,
        a ++ (str "://" ++ (mid ++ str ".git")) =
        a ++ ((str "://" ++ mid) ++ str ".git") := by
      intro a
      simp [List.append_assoc]
    have r1 : str "ssh://" ++ (mid ++ str ".git") =
        str "ssh" ++ ((str "://" ++ mid) ++ str ".git") := by
      rw [← assoc]; rfl
    have r2 : str "ftp://" ++ (mid ++ str ".git") =
        str "ftp" ++ ((str "://" ++ mid) ++ str ".git") := by
      rw [← assoc]; rfl
    have r3 : str "ftps://" ++ (mid ++ str ".git") =
        str "ftps" ++ ((str "://" ++ mid) ++ str ".git") := by
      rw [← assoc]; rfl
    have r4 : str "rsync://" ++ (mid ++ str ".git") =
        str "rsync" ++ ((str "://" ++ mid) ++ str ".git") := by
      rw [← assoc]; rfl
    have r5 : str "git://" ++ (mid ++ str ".git") =
        str "git" ++ ((str "://" ++ mid) ++ str ".git") := by
      rw [← assoc]; rfl
    refine ⟨?_, ?_, ?_, ?_, ?_⟩
    · rw [r1]; exact gitPatternMatch_of_scheme _ _ (by decide) htail
    · rw [r2]; exact gitPatternMatch_of_scheme _ _ (by decide) htail
    · rw [r3]; exact gitPatternMatch_of_scheme _ _ (by decide) htail
    · rw [r4]; exact gitPatternMatch_of_scheme _ _ (by decide) htail
    · rw [r5]; exact gitPatternMatch_of_scheme _ _ (by decide) htail

/-- C9 witness: the guard at a concrete `ssh` URL that the git pattern
accepts. -/
theorem c9_clone_guard_witness :
    Clone envDefault { url := str "ssh://host/repo.git", targetDir := str "repo", depth := 0 } =
      (some .gitInvalidURL, []) :=
  (c9_clone_guard envDefault
    { url := str "ssh://host/repo.git", targetDir := str "repo", depth := 0 }
    (by decide)).1

/-! ## C5 -/

theorem resultInv_handleGitURL (env : Env) (opts : Options) :
    ResultInv (handleGitURL env opts).1 := by
  simp only [handleGitURL]
  repeat' split
  all_goals simp_all [ResultInv, flagCount]

theorem resultInv_tarAfterTemp (env : Env) (opts : Options)
    (tmpDir tmpFile : List Char) :
    ResultInv (tarAfterTemp env opts tmpDir tmpFile).1 := by
  simp only [tarAfterTemp]
  repeat' split
  all_goals simp_all [ResultInv, flagCount]

theorem resultInv_handleTarballURL (env : Env) (opts : Options) :
    ResultInv (handleTarballURL env opts).1 := by
  simp only [handleTarballURL]
  repeat' split
  all_goals first
    | apply resultInv_tarAfterTemp
    | simp_all [ResultInv, flagCount]

theorem resultInv_zipFinish (env : Env)
    (tmpDir : List Char) (files : List ZipEntry) (rootDirF : List Char)
    (effs0 : List Effect) :
    ResultInv (zipFinish env tmpDir files rootDirF effs0).1 := by
  simp only [zipFinish]
  repeat' split
  all_goals simp_all [ResultInv, flagCount]

theorem resultInv_zipAfterTemp (env : Env) (opts : Options)
    (tmpDir tmpFile : List Char) :
    ResultInv (zipAfterTemp env opts tmpDir tmpFile).1 := by
  simp only [zipAfterTemp]
  repeat' split
  all_goals first
    | apply resultInv_zipFinish
    | simp_all [ResultInv, flagCount]

theorem resultInv_handleZipURL (env : Env) (opts : Options) :
    ResultInv (handleZipURL env opts).1 := by
  simp only [handleZipURL]
  repeat' split
  all_goals first
    | apply resultInv_zipAfterTemp
    | simp_all [ResultInv, flagCount]

/-- C5: every Result Take produces has at most one of the three flags
set; when the error field is empty exactly one flag is set, and when an
error is present all three flags are false. -/
theorem c5_result_invariant (env : Env) (opts : Options) :
    ResultInv (Take env opts).1 := by
  simp only [Take]
  repeat' split
  all_goals first
    | apply resultInv_handleGitURL
    | apply resultInv_handleTarballURL
    | apply resultInv_handleZipURL
    | simp_all [ResultInv, flagCount]

/-- C5 witness: the invariant at a concrete successful invocation. -/
theorem c5_result_invariant_witness :
    ResultInv (Take envDefault { path := str "proj", gitCloneDepth := 0, force := false }).1 :=
  c5_result_invariant envDefault _

/-! ## C3 -/

/-- C3: once Take has classified the input as a tarball URL and the
scratch directory, temp file, download and body copy have succeeded, a
non-zero exit of the external tar subprocess makes Take fail with the
tar-extraction error, whose kind in the specification's taxonomy is
ExtractionFailed; and when tar succeeds but no subdirectory is found
among the scratch-directory entries, Take fails with the error whose
message is "no directory found in archive", also of kind
ExtractionFailed. -/
theorem c3_tar_extraction_failures (env : Env) (opts : Options)
    (tmpDir tmpFile : List Char) (resp : HttpResp)
    (hne : opts.path ≠ [])
    (hsch : containsStr opts.path (str "://") = true)
    (hrepo : env.isGitRepo opts.path = false)
    (hgit : gitPatternMatch opts.path = false)
    (htar : tarballPatternMatch opts.path = true)
    (hT : env.mkdirTemp = Except.ok tmpDir)
    (hC : env.createTemp tmpDir (str "archive-*" ++
      (if fileExt opts.path = [] then str ".tar.gz" else fileExt opts.path)) =
      Except.ok tmpFile)
    (hG : env.httpGet opts.path = some resp)
    (hs : resp.statusCode = 200)
    (hB : env.copyBody opts.path = true) :
    (∀ m, env.tarRun [str "xf", tmpFile, str "-C", tmpDir] = some m →
      (Take env opts).1.error = some (.tarExtractionFailed m) ∧
      errKind (.tarExtractionFailed m) = .extractionFailedKind) ∧
    (env.tarRun [str "xf", tmpFile, str "-C", tmpDir] = none →
      ∀ entries, env.readDir tmpDir = Except.ok entries →
      firstDirName entries = [] →
      (Take env opts).1.error = some .noDirectoryFound ∧
      errKind .noDirectoryFound = .extractionFailedKind ∧
      errMessage .noDirectoryFound = str "no directory found in archive") := by
  have hdisp : Take env opts = handleTarballURL env opts := by
    simp [Take, hne, hsch, hrepo, hgit, htar]
  rw [hdisp]
  constructor
  · intro m hm
    refine ⟨?_, rfl⟩
    simp [handleTarballURL, hT, hC, tarAfterTemp, hG, hs, hB, hm]
  · intro hm entries he hf
    refine ⟨?_, rfl, rfl⟩
    simp [handleTarballURL, hT, hC, tarAfterTemp, hG, hs, hB, hm, he, hf]

/-- C3 witness: a failing tar subprocess in an otherwise successful
environment, on a concrete tarball URL. -/
theorem c3_tar_extraction_failures_witness :
    (Take envTarFail { path := str "http://host/a.tar.gz", gitCloneDepth := 0, force := false }).1.error =
      some (.tarExtractionFailed (str "exit status 1")) ∧
    errKind (.tarExtractionFailed (str "exit status 1")) = .extractionFailedKind :=
  (c3_tar_extraction_failures envTarFail
    { path := str "http://host/a.tar.gz", gitCloneDepth := 0, force := false }
    (str "/tmp/take-1") (joinPath2 (str "/tmp/take-1") (str "archive-1"))
    { statusCode := 200, bodyReadOk := true }
    (by decide) (by decide) rfl (by decide) (by decide) rfl rfl rfl rfl rfl).1
    (str "exit status 1") rfl

/-! ## C4 -/

theorem zipExtractLoop_ne_downloadFailed (env : Env) (tmpDir : List Char)
    (files : List ZipEntry) :
    (zipExtractLoop env tmpDir files).1 ≠ some .downloadFailed := by
  induction files with
  | nil => simp [zipExtractLoop]
  | cons f rest ih =>
    simp only [zipExtractLoop]
    split <;> simp_all

/-- C4 counterexample: a response with status 201 — inside the 2xx
range — is rejected by the tarball handler's download step with the
DownloadFailed error, although the claim says any 2xx status proceeds
to extraction. -/
theorem c4_counterexample :
    (200 : Int) ≤ 201 ∧ (201 : Int) < 300 ∧
    env201.httpGet (str "http://host/a.tar.gz") =
      some { statusCode := 201, bodyReadOk := true } ∧
    (handleTarballURL env201
      { path := str "http://host/a.tar.gz", gitCloneDepth := 0, force := false }).1.error =
      some .downloadFailed ∧
    (handleZipURL env201
      { path := str "http://host/a.zip", gitCloneDepth := 0, force := false }).1.error =
      some .downloadFailed := by
  refine ⟨by decide, by decide, rfl, ?_, ?_⟩ <;> decide

/-- C4 amended: with the scratch directory and temp file in place, each
archive handler fails with DownloadFailed exactly when the transport
fails, the status is not 200 (`http.StatusOK`), or copying the response
body fails; with a 200 status and a successful copy the download
proceeds to extraction and any later failure carries a different
error. -/
theorem c4_download_gate (env : Env) (opts : Options)
    (tmpDir tmpFile : List Char)
    (hT : env.mkdirTemp = Except.ok tmpDir) :
    (env.createTemp tmpDir (str "archive-*" ++
        (if fileExt opts.path = [] then str ".tar.gz" else fileExt opts.path)) =
        Except.ok tmpFile →
      ((handleTarballURL env opts).1.error = some .downloadFailed ↔
        downloadFails env opts.path)) ∧
    (env.createTemp tmpDir (str "archive-*.zip") = Except.ok tmpFile →
      ((handleZipURL env opts).1.error = some .downloadFailed ↔
        downloadFails env opts.path)) := by
  constructor
  · intro hC
    simp only [handleTarballURL, hT, hC]
    rcases hg : env.httpGet opts.path with _ | r
    · simp [tarAfterTemp, hg, downloadFails]
    · by_cases hs : r.statusCode = 200
      · rcases hbv : env.copyBody opts.path with _ | _
        · simp [tarAfterTemp, hg, hs, hbv, downloadFails]
        · constructor
          · intro hl
            exfalso
            revert hl
            simp only [tarAfterTemp, hg, hs, hbv]
            repeat' split
            all_goals simp_all
          · intro hr
            exfalso
            simp [downloadFails, hg, hs, hbv] at hr
      · simp [tarAfterTemp, hg, hs, downloadFails]
  · intro hC
    simp only [handleZipURL, hT, hC]
    rcases hg : env.httpGet opts.path with _ | r
    · simp [zipAfterTemp, hg, downloadFails]
    · by_cases hs : r.statusCode = 200
      · rcases hbv : env.copyBody opts.path with _ | _
        · simp [zipAfterTemp, hg, hs, hbv, downloadFails]
        · constructor
          · intro hl
            exfalso
            revert hl
            simp only [zipAfterTemp, hg, hs, hbv, zipFinish]
            repeat' split
            all_goals try simp_all
            all_goals
              (rename_i heq
               intro hx
               have h2 := congrArg Prod.fst heq
               rw [hx] at h2
               exact zipExtractLoop_ne_downloadFailed env tmpDir _ h2)
          · intro hr
            exfalso
            simp [downloadFails, hg, hs, hbv] at hr
      · simp [zipAfterTemp, hg, hs, downloadFails]

/-- C4 amended witness: the gate in the all-succeeding environment on a
concrete URL, instantiating both handlers. -/
theorem c4_download_gate_witness :
    ((handleTarballURL envDefault
        { path := str "http://host/a.tar.gz", gitCloneDepth := 0, force := false }).1.error =
        some .downloadFailed ↔
      downloadFails envDefault (str "http://host/a.tar.gz")) :=
  (c4_download_gate envDefault
    { path := str "http://host/a.tar.gz", gitCloneDepth := 0, force := false }
    (str "/tmp/take-1") (joinPath2 (str "/tmp/take-1") (str "archive-1"))
    rfl).1 rfl

/-! ## C6 -/

theorem takeWhile_all (p : Char → Bool) (l : List Char)
    (h : ∀ a ∈ l, p a = true) : l.takeWhile p = l := by
  induction l with
  | nil => rfl
  | cons a as ih =>
    rw [List.takeWhile_cons_of_pos (h a (by simp))]
    rw [ih (fun x hx => h x (by simp [hx]))]

theorem takeWhile_all_append (p : Char → Bool) (l : List Char) (c : Char)
    (rest : List Char) (hl : ∀ a ∈ l, p a = true) (hc : p c = false) :
    (l ++ c :: rest).takeWhile p = l := by
  induction l with
  | nil => simp [List.takeWhile_cons, hc]
  | cons a as ih =>
    rw [List.cons_append, List.takeWhile_cons_of_pos (hl a (by simp))]
    rw [ih (fun x hx => hl x (by simp [hx]))]

theorem basePath_append_last (x r : List Char) (hr : r ≠ [])
    (hslash : '/' ∉ r) : basePath (x ++ '/' :: r) = r := by
  have hne : x ++ '/' :: r ≠ [] := by simp
  have hrev : (x ++ '/' :: r).reverse = r.reverse ++ '/' :: x.reverse := by
    rw [List.reverse_append, List.reverse_cons, List.append_assoc]
    simp
  obtain ⟨y, t, hy⟩ : ∃ y t, r.reverse = y :: t := by
    cases hrv : r.reverse with
    | nil => exact absurd (by simpa using congrArg List.reverse hrv) hr
    | cons y t => exact ⟨y, t, rfl⟩
  have hymem : y ∈ r := by
    have : y ∈ r.reverse := by rw [hy]; simp
    simpa using this
  have hyn : ¬ (y = '/') := fun hh => hslash (hh ▸ hymem)
  have hdrop : ((x ++ '/' :: r).reverse.dropWhile (fun c => c = '/')) =
      r.reverse ++ '/' :: x.reverse := by
    rw [hrev, hy, List.cons_append]
    rw [List.dropWhile_cons_of_neg (by simpa using hyn)]
  have hp1 : ((x ++ '/' :: r).reverse.dropWhile (fun c => c = '/')).reverse ≠ [] := by
    rw [hdrop, hy]
    simp
  have hall : ∀ a ∈ r.reverse, (fun c => decide (¬ c = '/')) a = true := by
    intro a ha
    have ham : a ∈ r := List.mem_reverse.1 ha
    have hne2 : ¬ a = '/' := fun hEq => hslash (hEq ▸ ham)
    simpa using hne2
  unfold basePath
  rw [if_neg hne]
  simp only [hdrop, List.reverse_reverse, hp1, if_neg]
  rw [takeWhile_all_append (fun c => decide (¬ c = '/')) r.reverse '/'
    x.reverse hall (by decide)]
  simp

theorem afterLastChar_append (c : Char) (x b : List Char) (hb : c ∉ b) :
    afterLastChar c (x ++ c :: b) = b := by
  unfold afterLastChar
  have hrev : (x ++ c :: b).reverse = b.reverse ++ c :: x.reverse := by
    rw [List.reverse_append, List.reverse_cons, List.append_assoc]
    simp
  have hall : ∀ a ∈ b.reverse, (fun x => decide (¬ x = c)) a = true := by
    intro a ha
    have ham : a ∈ b := List.mem_reverse.1 ha
    have hne2 : ¬ a = c := fun hEq => hb (hEq ▸ ham)
    simpa using hne2
  rw [hrev, takeWhile_all_append (fun x => decide (¬ x = c)) b.reverse c
    x.reverse hall (by simp)]
  simp

theorem splitOnChar_not_mem (c : Char) (l : List Char) (h : c ∉ l) :
    splitOnChar c l = [l] := by
  induction l with
  | nil => rfl
  | cons a as ih =>
    have ha : ¬ a = c := fun hh => h (by simp [hh])
    have hs := ih (fun hm => h (by simp [hm]))
    simp [splitOnChar, ha, hs]

theorem splitOnChar_append (c : Char) (a b : List Char) (ha : c ∉ a) :
    splitOnChar c (a ++ c :: b) = a :: splitOnChar c b := by
  induction a with
  | nil => simp [splitOnChar]
  | cons x xs ih =>
    have hx : ¬ x = c := fun hh => ha (by simp [hh])
    have hs := ih (fun hm => ha (by simp [hm]))
    simp [splitOnChar, hx, hs]

/-- C6: on git URLs of the claim's two shapes the derived target name
is the repository segment: stripping the trailing `.git`, an SSH-style
URL `user@host:owner/repo.git` yields `repo` (the segment after the
last colon and then the last slash, which the claim's own derivation
also produces), and an HTTPS-style URL yields the final path segment. -/
theorem c6_repo_name (u hh o r pfx : List Char)
    (_hu_ne : u ≠ []) (_hu_at : '@' ∉ u) (hu_col : ':' ∉ u)
    (hh_col : ':' ∉ hh) (ho_col : ':' ∉ o)
    (hr_ne : r ≠ []) (hr_sl : '/' ∉ r) (hr_col : ':' ∉ r) :
    GetRepoName (u ++ str "@" ++ hh ++ str ":" ++ o ++ str "/" ++ r ++ str ".git") = r ∧
    claimRepoNameSSH (u ++ str "@" ++ hh ++ str ":" ++ o ++ str "/" ++ r ++ str ".git") = r ∧
    GetRepoName (str "https://" ++ pfx ++ str "/" ++ r ++ str ".git") = r ∧
    claimRepoNameHTTPS (str "https://" ++ pfx ++ str "/" ++ r ++ str ".git") = r := by
  have hBcol : ':' ∉ o ++ '/' :: r := by
    intro hm
    rcases List.mem_append.1 hm with hm | hm
    · exact ho_col hm
    · rcases List.mem_cons.1 hm with hm | hm
      · exact absurd hm.symm (by decide)
      · exact hr_col hm
  have hAcol : ':' ∉ (u ++ str "@" ++ hh : List Char) := by
    intro hm
    rcases List.mem_append.1 hm with hm | hm
    · rcases List.mem_append.1 hm with hm | hm
      · exact hu_col hm
      · simp [str] at hm
    · exact hh_col hm
  have ename : (u ++ str "@" ++ hh ++ str ":" ++ o ++ str "/" ++ r : List Char) =
      (u ++ str "@" ++ hh) ++ ':' :: (o ++ '/' :: r) := by
    simp [str, List.append_assoc]
  have etrim : trimSuffix
      (u ++ str "@" ++ hh ++ str ":" ++ o ++ str "/" ++ r ++ str ".git") (str ".git") =
      u ++ str "@" ++ hh ++ str ":" ++ o ++ str "/" ++ r :=
    trimSuffix_append _ _
  refine ⟨?_, ?_, ?_, ?_⟩
  · simp only [GetRepoName, etrim]
    by_cases hp : (str "git@").isPrefixOf (u ++ str "@" ++ hh ++ str ":" ++ o ++ str "/" ++ r)
    · rw [if_pos hp, ename, splitOnChar_append _ _ _ hAcol,
        splitOnChar_not_mem _ _ hBcol]
      exact basePath_append_last o r hr_ne hr_sl
    · rw [if_neg hp, ename]
      have : (u ++ str "@" ++ hh) ++ ':' :: (o ++ '/' :: r) =
          ((u ++ str "@" ++ hh) ++ ':' :: o) ++ '/' :: r := by
        simp [List.append_assoc]
      rw [this]
      exact basePath_append_last _ r hr_ne hr_sl
  · simp only [claimRepoNameSSH, etrim]
    rw [ename, afterLastChar_append _ _ _ hBcol]
    have : (o ++ '/' :: r : List Char) = o ++ '/' :: r := rfl
    rw [afterLastChar_append '/' o r hr_sl]
  · simp only [GetRepoName]
    have etrim2 : trimSuffix (str "https://" ++ pfx ++ str "/" ++ r ++ str ".git") (str ".git") =
        str "https://" ++ pfx ++ str "/" ++ r := trimSuffix_append _ _
    rw [etrim2]
    have hp : (str "git@").isPrefixOf (str "https://" ++ pfx ++ str "/" ++ r) = false := by
      have e1 : (str "https://" ++ pfx ++ str "/" ++ r : List Char) =
          'h' :: (str "ttps://" ++ pfx ++ str "/" ++ r) := by
        simp [str, List.append_assoc]
      have e2 : str "git@" = 'g' :: str "it@" := rfl
      rw [e1, e2, isPrefixOf_neq_head _ _ _ _ (by decide)]
    rw [hp]
    simp only [Bool.false_eq_true, if_false]
    have : (str "https://" ++ pfx ++ str "/" ++ r : List Char) =
        (str "https://" ++ pfx) ++ '/' :: r := by
      simp [str, List.append_assoc]
    rw [this]
    exact basePath_append_last _ r hr_ne hr_sl
  · simp only [claimRepoNameHTTPS]
    have etrim2 : trimSuffix (str "https://" ++ pfx ++ str "/" ++ r ++ str ".git") (str ".git") =
        str "https://" ++ pfx ++ str "/" ++ r := trimSuffix_append _ _
    rw [etrim2]
    have : (str "https://" ++ pfx ++ str "/" ++ r : List Char) =
        (str "https://" ++ pfx) ++ '/' :: r := by
      simp [str, List.append_assoc]
    rw [this]
    exact afterLastChar_append '/' _ r hr_sl

/-- C6 witness: both example URLs of the claim yield `repo`, through
the code's derivation and the claim's derivation alike. -/
theorem c6_repo_name_witness :
    GetRepoName (str "git@host:owner/repo.git") = str "repo" ∧
    claimRepoNameSSH (str "git@host:owner/repo.git") = str "repo" ∧
    GetRepoName (str "https://host/owner/repo.git") = str "repo" := by
  have h := c6_repo_name (str "git") (str "host") (str "owner") (str "repo")
    (str "host/owner") (by decide) (by decide) (by decide) (by decide)
    (by decide) (by decide) (by decide) (by decide)
  exact ⟨h.1, h.2.1, h.2.2.1⟩

/-! ## C7 -/

/-- C7 counterexample: on an archive whose first entry has an empty
top-level segment (`/x`) and whose second is rooted at `a`, the claim's
scan tracks the first segment seen (the empty one), sees `a` differ,
and demands the fallback name (`arch` for `http://host/arch.zip`); the
code instead overwrites its empty tracker with `a` and uses `a` as the
root, as the handler's final path shows. -/
theorem c7_counterexample :
    zipRootScan zipFilesMixed [] = str "a" ∧
    str "a" ≠ ([] : List Char) ∧
    codeZipRootName zipFilesMixed (str "http://host/arch.zip") = str "a" ∧
    claimZipRootName zipFilesMixed (str "http://host/arch.zip") = str "arch" ∧
    str "a" ≠ str "arch" ∧
    (handleZipURL envZipMixed
      { path := str "http://host/arch.zip", gitCloneDepth := 0, force := false }).1.finalPath =
      str "a" := by
  refine ⟨by decide, by decide, by decide, by decide, by decide, by decide⟩

theorem amendedStep_noRoot_absorb (files : List ZipEntry) :
    files.foldl amendedStep .noRoot = .noRoot := by
  induction files with
  | nil => rfl
  | cons f rest ih => simp [List.foldl_cons, amendedStep, ih]

theorem zipRootScan_eq_amended (files : List ZipEntry) (s : List Char) :
    zipRootScan files s =
      (match files.foldl amendedStep (.tracked s) with
       | .tracked t => t
       | .noRoot => []) := by
  induction files generalizing s with
  | nil => rfl
  | cons f rest ih =>
    simp only [zipRootScan, List.foldl_cons, amendedStep, skipSeg]
    by_cases h1 : ((str ".").isPrefixOf (splitOnChar '/' f.name).headI ||
        (str "_").isPrefixOf (splitOnChar '/' f.name).headI) = true
    · simp [h1, ih]
    · simp only [h1, if_false, Bool.false_eq_true]
      by_cases h2 : s = []
      · simp [h1, h2, ih]
      · by_cases h3 : (splitOnChar '/' f.name).headI = s
        · simp [h1, h2, h3, ih]
        · by_cases h4 : s = dirPath f.name
          · subst h4
            simp [h1, h2, h3, ih]
          · simp [h1, h2, h3, h4, amendedStep_noRoot_absorb]

/-- C7 amended: the zip handler determines the root name by scanning
entries in order, skipping entries whose first path segment starts with
a dot or an underscore, and tracking a top-level segment: while the
tracked segment is empty (initially, or after entries whose own first
segment is empty), the entry's first segment becomes the tracked one;
when a later entry's top-level segment differs from the non-empty
tracked segment and the tracked segment also differs from the cleaned
parent directory of the entry's path, the scan stops, concluding there
is no single common root; the final name is the tracked non-empty
segment, or the archive's file name with the `.zip` extension stripped
when the scan ended without one. -/
theorem c7_zip_root_amended (files : List ZipEntry) (url : List Char) :
    codeZipRootName files url = amendedZipRootName files url := by
  unfold codeZipRootName amendedZipRootName
  rw [zipRootScan_eq_amended]
  rcases hf : files.foldl amendedStep (.tracked []) with s | _ <;> simp [hf]
